import Mathlib

/-!
Verification of `scripts/update_fallback_data.py`.

Shallow embedding conventions:
* Instants are rationals counting hours since a local-midnight epoch in the
  region's timezone, so truncating to the top of the hour is `Int.floor` and
  the local hour-of-day of an integral hour `t` is `t.emod 24`.
* Python floats are modelled as rationals; `round(x, 2)` is modelled as
  rounding `100 * x` to the nearest integer and dividing by `100`.
* The random values drawn by `random.uniform(-1.5, 1.5)` are supplied as an
  ambient function from the loop offset to the drawn value.
* The HTTP call is modelled by the outcome the environment supplies: either
  an exception or a response with a status code and a body.
* The filesystem is a record of existing directories, written files (the
  written content is the JSON document) and a writability flag; failing
  operations return `Except.error`.
-/

/-- One element of the `hourly_data` list: `{'time': ..., 'price': ...}`. -/
structure HourItem where
  time : ℚ
  price : ℚ
deriving DecidableEq, Inhabited, Repr

/-- The value/time pair used for `min_price` and `max_price`. -/
structure PriceStat where
  value : ℚ
  time : ℚ
deriving DecidableEq, Inhabited, Repr

/-- The dictionary returned by `generate_fallback_data`. -/
structure PriceSummary where
  last_updated : ℚ
  current_price : ℚ
  average_price : ℚ
  min_price : PriceStat
  max_price : PriceStat
  hourly_data : List HourItem
deriving DecidableEq, Inhabited, Repr

/-- Model of `round(x, 2)`: round to two decimal places (nearest integer number of
hundredths, written via `Int.floor` so that it evaluates; ties round up). -/
def round2 (x : ℚ) : ℚ := (⌊100 * x + 1 / 2⌋ : ℤ) / 100

/-- The base-price bucket chosen from the local hour of day
(lines 88–97 of the script; `6.0`, `8.0`, … written as rational numerals). -/
def base_price (hour_of_day : ℤ) : ℚ :=
  if 0 ≤ hour_of_day ∧ hour_of_day < 6 then 6
  else if 6 ≤ hour_of_day ∧ hour_of_day < 9 then 8
  else if 9 ≤ hour_of_day ∧ hour_of_day < 17 then 12
  else if 17 ≤ hour_of_day ∧ hour_of_day < 22 then 10
  else 7

/-- One loop iteration of `generate_fallback_data`: the point for offset `i`
from the truncated current hour `t0`, with `ε i` the value drawn by
`random.uniform(-1.5, 1.5)` at that iteration. -/
def hourPoint (t0 : ℤ) (ε : ℤ → ℚ) (i : ℤ) : HourItem :=
  { time := ((t0 + i : ℤ) : ℚ)
    price := round2 (base_price ((t0 + i).emod 24) + ε i) }

/-- Python's `min` over a non-empty list of values (`min(prices)`);
`0` on the empty list, which never occurs in the script. -/
def pyMin : List ℚ → ℚ
  | [] => 0
  | x :: xs => xs.foldl min x

/-- Python's `max` over a non-empty list of values (`max(prices)`). -/
def pyMax : List ℚ → ℚ
  | [] => 0
  | x :: xs => xs.foldl max x

/-- The fold performed by Python's `min(l, key=...)` once the first element
has been taken as the initial best: a later element replaces the best only
when its key is strictly smaller, so the first minimiser wins. -/
def pyMinByAux (key : α → ℚ) (x : α) (xs : List α) : α :=
  xs.foldl (fun b y => if key y < key b then y else b) x

/-- Python's `min(l, key=...)` on a non-empty list. -/
def pyMinBy (key : α → ℚ) : List α → Option α
  | [] => none
  | x :: xs => some (pyMinByAux key x xs)

/-- Embedding of `generate_fallback_data` (lines 69–134): 48 hourly points around the
truncated current hour, their statistics, and the price of the point closest
to `now`.  `now` is the current instant in local hours, `ε` the stream of
uniform noise values indexed by loop offset. -/
def generate_fallback_data (now : ℚ) (ε : ℤ → ℚ) : PriceSummary :=
  let current_hour : ℤ := ⌊now⌋
  let hourly_data : List HourItem :=
    (List.range 48).map (fun k : ℕ => hourPoint current_hour ε ((k : ℤ) - 24))
  let prices : List ℚ := hourly_data.map (·.price)
  let avg_price : ℚ := prices.sum / (prices.length : ℚ)
  let min_price : ℚ := pyMin prices
  let max_price : ℚ := pyMax prices
  let min_item : HourItem :=
    (hourly_data.find? (fun it => it.price == min_price)).getD default
  let max_item : HourItem :=
    (hourly_data.find? (fun it => it.price == max_price)).getD default
  let current_hour_data : HourItem :=
    (pyMinBy (fun x => |x.time - now|) hourly_data).getD default
  { last_updated := now
    current_price := current_hour_data.price
    average_price := round2 avg_price
    min_price := { value := min_price, time := min_item.time }
    max_price := { value := max_price, time := max_item.time }
    hourly_data := hourly_data }

/-- The outcome of the single `requests.get` call, supplied by the
environment: the call raises, or it returns a response with a status code
and a body. -/
inductive FetchOutcome where
  | raises
  | response (status : ℕ) (body : String)
deriving DecidableEq, Repr

/-- Embedding of `fetch_entsoe_data` (lines 9–67): every exception is caught and every
branch returns `None` — on status 200 because XML parsing is unimplemented,
otherwise after printing the error. -/
def fetch_entsoe_data (o : FetchOutcome) : Option PriceSummary :=
  match o with
  | .raises => none
  | .response status _ => if status = 200 then none else none

/-- A JSON document, with ISO-8601 timestamp strings represented by the
instant they denote (ISO rendering is injective on instants). -/
inductive JsonVal where
  | num : ℚ → JsonVal
  | timeStr : ℚ → JsonVal
  | arr : List JsonVal → JsonVal
  | obj : List (String × JsonVal) → JsonVal
deriving Inhabited

/-- Serialization of one hourly item, as written by `json.dump`. -/
def serializeItem (it : HourItem) : JsonVal :=
  .obj [("time", .timeStr it.time), ("price", .num it.price)]

/-- Serialization of the whole summary dictionary, as written by
`json.dump` in `save_data` (line 145), with the JSON shape of the output
file. -/
def serialize (s : PriceSummary) : JsonVal :=
  .obj [("last_updated", .timeStr s.last_updated),
        ("current_price", .num s.current_price),
        ("average_price", .num s.average_price),
        ("min_price", .obj [("value", .num s.min_price.value),
                            ("time", .timeStr s.min_price.time)]),
        ("max_price", .obj [("value", .num s.max_price.value),
                            ("time", .timeStr s.max_price.time)]),
        ("hourly_data", .arr (s.hourly_data.map serializeItem))]

/-- Field lookup in a JSON object. -/
def jlookup (fields : List (String × JsonVal)) (k : String) : Option JsonVal :=
  (fields.find? (fun p => p.1 == k)).map (·.2)

/-- Modelled from the spec: the repository writes the JSON file but contains
no parser for it; this parser reads one `hourly_data` element back following
the JSON shape of §6 of the spec. -/
def parseItem : JsonVal → Option HourItem
  | .obj fields =>
    match jlookup fields "time", jlookup fields "price" with
    | some (.timeStr t), some (.num p) => some { time := t, price := p }
    | _, _ => none
  | _ => none

/-- Modelled from the spec: parses a JSON array of hourly items. -/
def parseItems : List JsonVal → Option (List HourItem)
  | [] => some []
  | j :: js => do
    let it ← parseItem j
    let rest ← parseItems js
    pure (it :: rest)

/-- Modelled from the spec: parses a `value`/`time` pair. -/
def parseStat : JsonVal → Option PriceStat
  | .obj fields =>
    match jlookup fields "value", jlookup fields "time" with
    | some (.num v), some (.timeStr t) => some { value := v, time := t }
    | _, _ => none
  | _ => none

/-- Modelled from the spec: the repository contains no parser for the file it
writes; this parser reads a `PriceSummary` back from a JSON document
following the JSON shape of §6 of the spec. -/
def parse (j : JsonVal) : Option PriceSummary :=
  match j with
  | .obj fields =>
    match jlookup fields "last_updated", jlookup fields "current_price",
          jlookup fields "average_price", jlookup fields "min_price",
          jlookup fields "max_price", jlookup fields "hourly_data" with
    | some (.timeStr lu), some (.num cp), some (.num ap),
      some mn, some mx, some (.arr items) => do
        let mnStat ← parseStat mn
        let mxStat ← parseStat mx
        let hourly ← parseItems items
        pure { last_updated := lu, current_price := cp, average_price := ap,
               min_price := mnStat, max_price := mxStat, hourly_data := hourly }
    | _, _, _, _, _, _ => none
  | _ => none

/-- The filesystem state seen by the script: existing directories, written
files (path and JSON content), and whether the filesystem is writable. -/
structure FS where
  dirs : List String
  files : List (String × JsonVal)
  writable : Bool

/-- Model of `os.makedirs(d, exist_ok=True)`: succeeds immediately when the directory
exists, creates it when the filesystem is writable, and raises otherwise. -/
def makedirs (fs : FS) (d : String) : Except String FS :=
  if d ∈ fs.dirs then .ok fs
  else if fs.writable then .ok { fs with dirs := d :: fs.dirs }
  else .error "permission denied"

/-- Opening a file for writing and dumping JSON into it: overwrites any
previous content, raises when the filesystem is unwritable. -/
def writeFile (fs : FS) (path : String) (content : JsonVal) : Except String FS :=
  if fs.writable then .ok { fs with files := (path, content) :: fs.files }
  else .error "permission denied"

/-- The content at a path (the most recent write wins). -/
def readFile (fs : FS) (path : String) : Option JsonVal :=
  (fs.files.find? (fun p => p.1 == path)).map (·.2)

/-- Embedding of `save_data` (lines 136–149): ensure the `data` directory exists, then
write the serialized summary to `data/electricity-prices.json`.  Neither
step is wrapped in a try/except, so errors propagate. -/
def save_data (fs : FS) (data : PriceSummary) : Except String FS :=
  match makedirs fs "data" with
  | .error e => .error e
  | .ok fs1 => writeFile fs1 "data/electricity-prices.json" (serialize data)

/-- Embedding of `main` (lines 151–168): try the fetcher, fall back to the generator when
it returns `None`, and save the result.  No try/except, so a `save_data`
error propagates out of `main`.  (Named `main'` because Lean reserves
`main` for executable entry points.) -/
def main' (o : FetchOutcome) (now : ℚ) (ε : ℤ → ℚ) (fs : FS) :
    Except String FS :=
  let data : PriceSummary :=
    match fetch_entsoe_data o with
    | some d => d
    | none => generate_fallback_data now ε
  save_data fs data

/-! ### Helper lemmas about the embedded operations -/

/-- Rounding to two decimals is monotone. -/
theorem round2_mono {x y : ℚ} (h : x ≤ y) : round2 x ≤ round2 y := by
  have hf : (⌊100 * x + 1 / 2⌋ : ℤ) ≤ ⌊100 * y + 1 / 2⌋ :=
    Int.floor_mono (by linarith)
  have hc : ((⌊100 * x + 1 / 2⌋ : ℤ) : ℚ) ≤ ((⌊100 * y + 1 / 2⌋ : ℤ) : ℚ) := by
    exact_mod_cast hf
  unfold round2
  linarith

/-- The base price is one of the five bucket values. -/
theorem base_price_cases (h : ℤ) :
    base_price h = 6 ∨ base_price h = 8 ∨ base_price h = 12 ∨
      base_price h = 10 ∨ base_price h = 7 := by
  unfold base_price
  split_ifs <;> simp

/-- The base price always lies between the night value 6 and the day value 12. -/
theorem base_price_bounds (h : ℤ) : 6 ≤ base_price h ∧ base_price h ≤ 12 := by
  unfold base_price
  split_ifs <;> norm_num

/-- A left fold with `min` is below its initial value. -/
theorem foldl_min_le_init (xs : List ℚ) : ∀ x : ℚ, xs.foldl min x ≤ x := by
  induction xs with
  | nil => intro x; simp
  | cons y ys ih =>
    intro x
    calc (y :: ys).foldl min x = ys.foldl min (min x y) := rfl
      _ ≤ min x y := ih _
      _ ≤ x := min_le_left _ _

/-- A left fold with `min` is below every list element. -/
theorem foldl_min_le_mem (xs : List ℚ) :
    ∀ (x y : ℚ), y ∈ xs → xs.foldl min x ≤ y := by
  induction xs with
  | nil => intro x y hy; simp at hy
  | cons z zs ih =>
    intro x y hy
    rcases List.mem_cons.mp hy with rfl | hy
    · calc (y :: zs).foldl min x = zs.foldl min (min x y) := rfl
        _ ≤ min x y := foldl_min_le_init _ _
        _ ≤ y := min_le_right _ _
    · exact ih _ y hy

/-- A left fold with `min` returns the initial value or a list element. -/
theorem foldl_min_mem (xs : List ℚ) :
    ∀ x : ℚ, xs.foldl min x = x ∨ xs.foldl min x ∈ xs := by
  induction xs with
  | nil => intro x; exact Or.inl rfl
  | cons y ys ih =>
    intro x
    have hcons : (y :: ys).foldl min x = ys.foldl min (min x y) := rfl
    rcases ih (min x y) with h | h
    · rcases min_choice x y with he | he
      · left; rw [hcons, h, he]
      · right; rw [hcons, h, he]; exact List.mem_cons_self _ _
    · right; rw [hcons]; exact List.mem_cons_of_mem _ h

/-- A left fold with `max` is above its initial value. -/
theorem foldl_max_ge_init (xs : List ℚ) : ∀ x : ℚ, x ≤ xs.foldl max x := by
  induction xs with
  | nil => intro x; simp
  | cons y ys ih =>
    intro x
    calc x ≤ max x y := le_max_left _ _
      _ ≤ ys.foldl max (max x y) := ih _
      _ = (y :: ys).foldl max x := rfl

/-- A left fold with `max` is above every list element. -/
theorem foldl_max_ge_mem (xs : List ℚ) :
    ∀ (x y : ℚ), y ∈ xs → y ≤ xs.foldl max x := by
  induction xs with
  | nil => intro x y hy; simp at hy
  | cons z zs ih =>
    intro x y hy
    rcases List.mem_cons.mp hy with rfl | hy
    · calc y ≤ max x y := le_max_right _ _
        _ ≤ zs.foldl max (max x y) := foldl_max_ge_init _ _
        _ = (y :: zs).foldl max x := rfl
    · exact ih _ y hy

/-- A left fold with `max` returns the initial value or a list element. -/
theorem foldl_max_mem (xs : List ℚ) :
    ∀ x : ℚ, xs.foldl max x = x ∨ xs.foldl max x ∈ xs := by
  induction xs with
  | nil => intro x; exact Or.inl rfl
  | cons y ys ih =>
    intro x
    have hcons : (y :: ys).foldl max x = ys.foldl max (max x y) := rfl
    rcases ih (max x y) with h | h
    · rcases max_choice x y with he | he
      · left; rw [hcons, h, he]
      · right; rw [hcons, h, he]; exact List.mem_cons_self _ _
    · right; rw [hcons]; exact List.mem_cons_of_mem _ h

/-- The value `pyMin l` is a lower bound of the list. -/
theorem pyMin_le {l : List ℚ} {y : ℚ} (hy : y ∈ l) : pyMin l ≤ y := by
  match l with
  | x :: xs =>
    rcases List.mem_cons.mp hy with rfl | hy'
    · exact foldl_min_le_init xs y
    · exact foldl_min_le_mem xs x y hy'

/-- The value `pyMin l` of a non-empty list is an element of the list. -/
theorem pyMin_mem {l : List ℚ} (h : l ≠ []) : pyMin l ∈ l := by
  match l with
  | x :: xs =>
    rcases foldl_min_mem xs x with he | hm
    · show xs.foldl min x ∈ x :: xs
      rw [he]; exact List.mem_cons_self _ _
    · exact List.mem_cons_of_mem _ hm

/-- The value `pyMax l` is an upper bound of the list. -/
theorem pyMax_ge {l : List ℚ} {y : ℚ} (hy : y ∈ l) : y ≤ pyMax l := by
  match l with
  | x :: xs =>
    rcases List.mem_cons.mp hy with rfl | hy'
    · exact foldl_max_ge_init xs y
    · exact foldl_max_ge_mem xs x y hy'

/-- The value `pyMax l` of a non-empty list is an element of the list. -/
theorem pyMax_mem {l : List ℚ} (h : l ≠ []) : pyMax l ∈ l := by
  match l with
  | x :: xs =>
    rcases foldl_max_mem xs x with he | hm
    · show xs.foldl max x ∈ x :: xs
      rw [he]; exact List.mem_cons_self _ _
    · exact List.mem_cons_of_mem _ hm

/-- Within bounds, `getD` is `get`. -/
theorem getD_of_lt {α} (l : List α) (d : α) {k : ℕ} (h : k < l.length) :
    l.getD k d = l.get ⟨k, h⟩ := by
  simp [List.getD_eq_getElem?_getD, List.getElem?_eq_getElem h,
    List.get_eq_getElem]

/-- The function `find?` returns the first element satisfying the predicate: its index is
below the length, and everything strictly before it fails the predicate. -/
theorem find?_first {α} (p : α → Bool) (d : α) :
    ∀ (l : List α) (a : α), l.find? p = some a →
      ∃ j, j < l.length ∧ l.getD j d = a ∧ p a = true ∧
        ∀ k, k < j → p (l.getD k d) = false := by
  intro l
  induction l with
  | nil => intro a h; simp at h
  | cons x xs ih =>
    intro a h
    by_cases hx : p x = true
    · rw [List.find?_cons_of_pos _ hx] at h
      obtain rfl : x = a := Option.some.inj h
      exact ⟨0, by simp, rfl, hx, fun k hk => absurd hk (Nat.not_lt_zero k)⟩
    · rw [List.find?_cons_of_neg _ (by simpa using hx)] at h
      obtain ⟨j, hj, hja, hpa, hfirst⟩ := ih a h
      refine ⟨j + 1, by simpa using Nat.succ_lt_succ hj, by simpa using hja,
        hpa, ?_⟩
      intro k hk
      cases k with
      | zero => simpa using hx
      | succ k =>
        simpa using hfirst k (Nat.lt_of_succ_lt_succ hk)

/-- The fold behind `min(l, key=...)` returns its initial value or an
element of the list. -/
theorem pyMinByAux_mem {α} (key : α → ℚ) :
    ∀ (xs : List α) (x : α),
      pyMinByAux key x xs = x ∨ pyMinByAux key x xs ∈ xs := by
  intro xs
  induction xs with
  | nil => intro x; exact Or.inl rfl
  | cons y ys ih =>
    intro x
    have hrw : pyMinByAux key x (y :: ys)
        = pyMinByAux key (if key y < key x then y else x) ys := rfl
    rcases ih (if key y < key x then y else x) with h | h
    · rw [hrw, h]
      by_cases hxy : key y < key x
      · rw [if_pos hxy]; right; exact List.mem_cons_self _ _
      · rw [if_neg hxy]; left; rfl
    · right; rw [hrw]; exact List.mem_cons_of_mem _ h

/-- Full specification of the fold behind `min(l, key=...)` with initial
best `x`: it returns the element of `x :: xs` at the first index whose key
attains the minimum over `x :: xs`. -/
theorem pyMinByAux_spec {α} (key : α → ℚ) (d : α) :
    ∀ (xs : List α) (x : α),
      ∃ j, j < (x :: xs).length ∧
        pyMinByAux key x xs = (x :: xs).getD j d ∧
        (∀ k, k < (x :: xs).length →
          key ((x :: xs).getD j d) ≤ key ((x :: xs).getD k d)) ∧
        (∀ k, k < j → key ((x :: xs).getD j d) < key ((x :: xs).getD k d)) := by
  intro xs
  induction xs with
  | nil =>
    intro x
    refine ⟨0, by simp, rfl, ?_, ?_⟩
    · intro k hk
      have : k = 0 := by simpa using Nat.lt_one_iff.mp (by simpa using hk)
      subst this; exact le_refl _
    · intro k hk; exact absurd hk (Nat.not_lt_zero k)
  | cons y ys ih =>
    intro x
    have hrw : pyMinByAux key x (y :: ys)
        = pyMinByAux key (if key y < key x then y else x) ys := rfl
    by_cases hxy : key y < key x
    · obtain ⟨j, hj, heq, hmin, hfirst⟩ := ih y
      refine ⟨j + 1, by simpa using Nat.succ_lt_succ (by simpa using hj), ?_,
        ?_, ?_⟩
      · rw [hrw, if_pos hxy]
        simpa using heq
      · intro k hk
        cases k with
        | zero =>
          have h0 := hmin 0 (by simp)
          simp only [List.getD_cons_succ, List.getD_cons_zero] at h0 ⊢
          exact le_of_lt (lt_of_le_of_lt h0 hxy)
        | succ k =>
          have hk' : k < (y :: ys).length := by
            simpa using Nat.lt_of_succ_lt_succ (by simpa using hk)
          have := hmin k hk'
          simpa using this
      · intro k hk
        cases k with
        | zero =>
          have h0 := hmin 0 (by simp)
          simp only [List.getD_cons_succ, List.getD_cons_zero] at h0 ⊢
          exact lt_of_le_of_lt h0 hxy
        | succ k =>
          have := hfirst k (Nat.lt_of_succ_lt_succ hk)
          simpa using this
    · obtain ⟨j, hj, heq, hmin, hfirst⟩ := ih x
      push_neg at hxy
      cases j with
      | zero =>
        refine ⟨0, by simp, ?_, ?_, ?_⟩
        · rw [hrw, if_neg (not_lt.mpr hxy)]
          simpa using heq
        · intro k hk
          cases k with
          | zero => exact le_refl _
          | succ k =>
            cases k with
            | zero =>
              simpa using hxy
            | succ k =>
              have hk' : k + 1 < (x :: ys).length := by
                simp only [List.length_cons] at hk ⊢
                omega
              have := hmin (k + 1) hk'
              simpa using this
        · intro k hk; exact absurd hk (Nat.not_lt_zero k)
      | succ i =>
        refine ⟨i + 2, ?_, ?_, ?_, ?_⟩
        · simp only [List.length_cons] at hj ⊢
          omega
        · rw [hrw, if_neg (not_lt.mpr hxy)]
          simpa using heq
        · intro k hk
          cases k with
          | zero =>
            have := hmin 0 (by simp)
            simpa using this
          | succ k =>
            cases k with
            | zero =>
              have h0 := hmin 0 (by simp)
              simp only [List.getD_cons_succ, List.getD_cons_zero] at h0 ⊢
              exact le_trans h0 hxy
            | succ k =>
              have hk' : k + 1 < (x :: ys).length := by
                simp only [List.length_cons] at hk ⊢
                omega
              have := hmin (k + 1) hk'
              simpa using this
        · intro k hk
          cases k with
          | zero =>
            have := hfirst 0 (by omega)
            simpa using this
          | succ k =>
            cases k with
            | zero =>
              have h0 := hfirst 0 (by omega)
              simp only [List.getD_cons_succ, List.getD_cons_zero] at h0 ⊢
              exact lt_of_lt_of_le h0 hxy
            | succ k =>
              have := hfirst (k + 1) (by omega)
              simpa using this

/-- Specification of `min(l, key=...)` on a non-empty list: it returns the
element at the first key-minimising index. -/
theorem pyMinBy_spec {α} (key : α → ℚ) (d : α) (l : List α) (h : l ≠ []) :
    ∃ r j, pyMinBy key l = some r ∧ j < l.length ∧ l.getD j d = r ∧
      (∀ k, k < l.length → key r ≤ key (l.getD k d)) ∧
      ∀ k, k < j → key r < key (l.getD k d) := by
  match l with
  | x :: xs =>
    obtain ⟨j, hj, heq, hmin, hfirst⟩ := pyMinByAux_spec key d xs x
    refine ⟨pyMinByAux key x xs, j, rfl, hj, heq.symm, ?_, ?_⟩
    · intro k hk; rw [heq]; exact hmin k hk
    · intro k hk; rw [heq]; exact hfirst k hk

/-! ### Bridging lemmas that unfold `generate_fallback_data` -/

/-- The hourly list built by the generator loop. -/
theorem generate_hourly_data_eq (now : ℚ) (ε : ℤ → ℚ) :
    (generate_fallback_data now ε).hourly_data
      = (List.range 48).map (fun k : ℕ => hourPoint ⌊now⌋ ε ((k : ℤ) - 24)) := rfl

/-- The generator produces 48 points. -/
theorem generate_hourly_length (now : ℚ) (ε : ℤ → ℚ) :
    (generate_fallback_data now ε).hourly_data.length = 48 := by
  rw [generate_hourly_data_eq, List.length_map, List.length_range]

/-- The generator's list is non-empty. -/
theorem generate_hourly_ne_nil (now : ℚ) (ε : ℤ → ℚ) :
    (generate_fallback_data now ε).hourly_data ≠ [] := by
  intro h
  have := congrArg List.length h
  rw [generate_hourly_length] at this
  simp at this

/-- Indexing into the generator's list. -/
theorem generate_hourly_getD (now : ℚ) (ε : ℤ → ℚ) {k : ℕ} (hk : k < 48) :
    (generate_fallback_data now ε).hourly_data.getD k default
      = hourPoint ⌊now⌋ ε ((k : ℤ) - 24) := by
  rw [generate_hourly_data_eq]
  rw [getD_of_lt _ _ (by simpa using hk)]
  simp only [List.get_eq_getElem, List.getElem_map, List.getElem_range]

/-- Membership in the generator's list. -/
theorem mem_generate_hourly {now : ℚ} {ε : ℤ → ℚ} {p : HourItem} :
    p ∈ (generate_fallback_data now ε).hourly_data ↔
      ∃ k : ℕ, k < 48 ∧ p = hourPoint ⌊now⌋ ε ((k : ℤ) - 24) := by
  rw [generate_hourly_data_eq]
  simp only [List.mem_map, List.mem_range]
  constructor
  · rintro ⟨k, hk, hkp⟩; exact ⟨k, hk, hkp.symm⟩
  · rintro ⟨k, hk, hkp⟩; exact ⟨k, hk, hkp.symm⟩

/-- The stored minimum value is `min(prices)`. -/
theorem generate_min_value_eq (now : ℚ) (ε : ℤ → ℚ) :
    (generate_fallback_data now ε).min_price.value
      = pyMin ((generate_fallback_data now ε).hourly_data.map (·.price)) := rfl

/-- The stored maximum value is `max(prices)`. -/
theorem generate_max_value_eq (now : ℚ) (ε : ℤ → ℚ) :
    (generate_fallback_data now ε).max_price.value
      = pyMax ((generate_fallback_data now ε).hourly_data.map (·.price)) := rfl

/-- The stored minimum time comes from the first item whose price equals
`min(prices)`. -/
theorem generate_min_time_eq (now : ℚ) (ε : ℤ → ℚ) :
    (generate_fallback_data now ε).min_price.time
      = (((generate_fallback_data now ε).hourly_data.find?
          (fun it => it.price == (generate_fallback_data now ε).min_price.value)).getD
          default).time := rfl

/-- The stored maximum time comes from the first item whose price equals
`max(prices)`. -/
theorem generate_max_time_eq (now : ℚ) (ε : ℤ → ℚ) :
    (generate_fallback_data now ε).max_price.time
      = (((generate_fallback_data now ε).hourly_data.find?
          (fun it => it.price == (generate_fallback_data now ε).max_price.value)).getD
          default).time := rfl

/-- The stored current price comes from `min(hourly_data, key=distance)`. -/
theorem generate_current_eq (now : ℚ) (ε : ℤ → ℚ) :
    (generate_fallback_data now ε).current_price
      = ((pyMinBy (fun x => |x.time - now|)
          (generate_fallback_data now ε).hourly_data).getD default).price := rfl

/-- The stored average is the rounded mean `sum / len`. -/
theorem generate_average_eq (now : ℚ) (ε : ℤ → ℚ) :
    (generate_fallback_data now ε).average_price
      = round2 ((((generate_fallback_data now ε).hourly_data.map (·.price)).sum)
        / (((generate_fallback_data now ε).hourly_data.map (·.price)).length : ℚ)) :=
  rfl

/-- The fetcher returns `None` on every outcome. -/
theorem fetch_none (o : FetchOutcome) : fetch_entsoe_data o = none := by
  cases o with
  | raises => rfl
  | response status body => simp [fetch_entsoe_data]

/-- The orchestrator always saves the generator's output. -/
theorem main_eq_save (o : FetchOutcome) (now : ℚ) (ε : ℤ → ℚ) (fs : FS) :
    main' o now ε fs = save_data fs (generate_fallback_data now ε) := by
  simp [main', fetch_none]

/-- On a writable filesystem `save_data` succeeds and the file holds the
serialized summary; the `data` directory exists afterwards and the
filesystem stays writable. -/
theorem save_data_ok (fs : FS) (d : PriceSummary) (hw : fs.writable = true) :
    ∃ fs', save_data fs d = .ok fs' ∧
      readFile fs' "data/electricity-prices.json" = some (serialize d) ∧
      "data" ∈ fs'.dirs ∧ fs'.writable = true := by
  by_cases hd : "data" ∈ fs.dirs
  · have hmk : makedirs fs "data" = .ok fs := by
      unfold makedirs; rw [if_pos hd]
    have hwf : writeFile fs "data/electricity-prices.json" (serialize d)
        = .ok { fs with
            files := ("data/electricity-prices.json", serialize d) :: fs.files } := by
      unfold writeFile; rw [if_pos hw]
    refine ⟨{ fs with
        files := ("data/electricity-prices.json", serialize d) :: fs.files },
      ?_, ?_, hd, hw⟩
    · unfold save_data
      rw [hmk]
      exact hwf
    · unfold readFile
      rw [List.find?_cons_of_pos _ (by simp)]
      rfl
  · have hmk : makedirs fs "data"
        = .ok { fs with dirs := "data" :: fs.dirs } := by
      unfold makedirs; rw [if_neg hd, if_pos hw]
    have hwf : writeFile { fs with dirs := "data" :: fs.dirs }
          "data/electricity-prices.json" (serialize d)
        = .ok { dirs := "data" :: fs.dirs,
                files := ("data/electricity-prices.json", serialize d) :: fs.files,
                writable := fs.writable } := by
      unfold writeFile; rw [if_pos hw]
    refine ⟨{ dirs := "data" :: fs.dirs,
              files := ("data/electricity-prices.json", serialize d) :: fs.files,
              writable := fs.writable },
      ?_, ?_, List.mem_cons_self _ _, hw⟩
    · unfold save_data
      rw [hmk]
      exact hwf
    · unfold readFile
      rw [List.find?_cons_of_pos _ (by simp)]
      rfl

/-- On an unwritable filesystem `save_data` raises. -/
theorem save_data_err (fs : FS) (d : PriceSummary) (hw : fs.writable = false) :
    save_data fs d = .error "permission denied" := by
  by_cases hd : "data" ∈ fs.dirs
  · have hmk : makedirs fs "data" = .ok fs := by
      unfold makedirs; rw [if_pos hd]
    have hwf : writeFile fs "data/electricity-prices.json" (serialize d)
        = .error "permission denied" := by
      unfold writeFile; rw [hw]; simp
    unfold save_data
    rw [hmk]
    exact hwf
  · have hmk : makedirs fs "data" = .error "permission denied" := by
      unfold makedirs; rw [if_neg hd, hw]; simp
    unfold save_data
    rw [hmk]

/-! ### Claim theorems -/

/-- C1: if the HTTP call raises, or returns a response whose status is not
success (200), `fetch_entsoe_data` returns the sentinel `none` and never
raises; the orchestrator then uses the generator's fallback data and, on a
writable filesystem, still writes the output file with that dataset. -/
theorem fetch_failure_uses_fallback (o : FetchOutcome)
    (ho : o = FetchOutcome.raises ∨
      ∃ st b, o = FetchOutcome.response st b ∧ st ≠ 200)
    (now : ℚ) (ε : ℤ → ℚ) (fs : FS) (hw : fs.writable = true) :
    fetch_entsoe_data o = none ∧
    ∃ fs', main' o now ε fs = Except.ok fs' ∧
      readFile fs' "data/electricity-prices.json"
        = some (serialize (generate_fallback_data now ε)) := by
  obtain ⟨fs', hok, hread, _, _⟩ :=
    save_data_ok fs (generate_fallback_data now ε) hw
  refine ⟨fetch_none o, fs', ?_, hread⟩
  rw [main_eq_save]
  exact hok

/-- Witness for C1 at a concrete HTTP 500 response and an empty writable
filesystem. -/
theorem fetch_failure_uses_fallback_witness :
    fetch_entsoe_data (FetchOutcome.response 500 "") = none ∧
    ∃ fs', main' (FetchOutcome.response 500 "") 0 (fun _ => 0)
        { dirs := [], files := [], writable := true } = Except.ok fs' ∧
      readFile fs' "data/electricity-prices.json"
        = some (serialize (generate_fallback_data 0 (fun _ => 0))) :=
  fetch_failure_uses_fallback (FetchOutcome.response 500 "")
    (Or.inr ⟨500, "", rfl, by norm_num⟩) 0 (fun _ => 0)
    { dirs := [], files := [], writable := true } rfl

/-- C2: a success (200) response also yields the sentinel `none` because
response parsing is unimplemented; in fact the fetcher returns the sentinel
on every outcome, so the dataset persisted by a run (on a writable
filesystem) is always the generator's output. -/
theorem fetch_success_still_fallback (b : String) (o : FetchOutcome)
    (now : ℚ) (ε : ℤ → ℚ) (fs : FS) (hw : fs.writable = true) :
    fetch_entsoe_data (FetchOutcome.response 200 b) = none ∧
    fetch_entsoe_data o = none ∧
    ∃ fs', main' o now ε fs = Except.ok fs' ∧
      readFile fs' "data/electricity-prices.json"
        = some (serialize (generate_fallback_data now ε)) := by
  obtain ⟨fs', hok, hread, _, _⟩ :=
    save_data_ok fs (generate_fallback_data now ε) hw
  refine ⟨fetch_none _, fetch_none o, fs', ?_, hread⟩
  rw [main_eq_save]
  exact hok

/-- Witness for C2 at a concrete 200 response with an unparsed XML body. -/
theorem fetch_success_still_fallback_witness :
    fetch_entsoe_data (FetchOutcome.response 200 "<xml>") = none ∧
    fetch_entsoe_data (FetchOutcome.response 200 "<xml>") = none ∧
    ∃ fs', main' (FetchOutcome.response 200 "<xml>") 0 (fun _ => 0)
        { dirs := [], files := [], writable := true } = Except.ok fs' ∧
      readFile fs' "data/electricity-prices.json"
        = some (serialize (generate_fallback_data 0 (fun _ => 0))) :=
  fetch_success_still_fallback "<xml>" (FetchOutcome.response 200 "<xml>")
    0 (fun _ => 0) { dirs := [], files := [], writable := true } rfl

/-- C8: the writer fails only when the filesystem is unwritable: on a
writable filesystem it succeeds, the destination directory exists afterwards
and a second invocation succeeds again (directory creation is idempotent);
an error implies the filesystem was unwritable; and on an unwritable
filesystem the error propagates uncaught out of the writer and out of the
orchestrator. -/
theorem save_data_failure_spec (fs : FS) (d : PriceSummary) :
    (fs.writable = true →
      ∃ fs₁ fs₂, save_data fs d = Except.ok fs₁ ∧
        "data" ∈ fs₁.dirs ∧ save_data fs₁ d = Except.ok fs₂) ∧
    (∀ e, save_data fs d = Except.error e → fs.writable = false) ∧
    (∀ o now ε, fs.writable = false →
      main' o now ε fs = Except.error "permission denied") := by
  refine ⟨?_, ?_, ?_⟩
  · intro hw
    obtain ⟨fs₁, h1, _, hdir, hw1⟩ := save_data_ok fs d hw
    obtain ⟨fs₂, h2, _, _, _⟩ := save_data_ok fs₁ d hw1
    exact ⟨fs₁, fs₂, h1, hdir, h2⟩
  · intro e he
    cases hfs : fs.writable with
    | false => rfl
    | true =>
      obtain ⟨fs', h1, _, _, _⟩ := save_data_ok fs d hfs
      rw [h1] at he
      exact Except.noConfusion he
  · intro o now ε hw
    rw [main_eq_save]
    exact save_data_err fs _ hw

/-- Witness for C8: a concrete writable filesystem saves twice in a row, and
a concrete unwritable one makes the orchestrator fail. -/
theorem save_data_failure_spec_witness :
    (∃ fs₁ fs₂,
      save_data { dirs := [], files := [], writable := true }
          (generate_fallback_data 0 (fun _ => 0)) = Except.ok fs₁ ∧
        "data" ∈ fs₁.dirs ∧
        save_data fs₁ (generate_fallback_data 0 (fun _ => 0))
          = Except.ok fs₂) ∧
    main' FetchOutcome.raises 0 (fun _ => 0)
        { dirs := [], files := [], writable := false }
      = Except.error "permission denied" :=
  ⟨(save_data_failure_spec { dirs := [], files := [], writable := true }
      (generate_fallback_data 0 (fun _ => 0))).1 rfl,
   (save_data_failure_spec { dirs := [], files := [], writable := false }
      (generate_fallback_data 0 (fun _ => 0))).2.2
     FetchOutcome.raises 0 (fun _ => 0) rfl⟩

/-- Parsing inverts serialization on the hourly array. -/
theorem parseItems_map_serializeItem (l : List HourItem) :
    parseItems (l.map serializeItem) = some l := by
  induction l with
  | nil => rfl
  | cons x xs ih =>
    simp [parseItems, ih, show parseItem (serializeItem x) = some x from rfl]

/-- C9: serializing any `PriceSummary` to the JSON document and parsing it
back yields the very same summary — in particular the same (time, price)
pairs in `hourly_data` and the same `last_updated`, `current_price`,
`average_price`, `min_price` and `max_price` scalars (the rational model is
exact, so equality holds with no rounding slack). -/
theorem serialize_parse_roundtrip (s : PriceSummary) :
    parse (serialize s) = some s ∧
    (parse (serialize s)).map
        (fun t => t.hourly_data.map (fun p => (p.time, p.price)))
      = some (s.hourly_data.map (fun p => (p.time, p.price))) := by
  have h : parse (serialize s)
      = (parseItems (s.hourly_data.map serializeItem)).bind
          (fun hourly => some { s with hourly_data := hourly }) := rfl
  have hmain : parse (serialize s) = some s := by
    rw [h, parseItems_map_serializeItem]
    rfl
  refine ⟨hmain, ?_⟩
  rw [hmain]
  rfl

/-- Timestamp of one generated point. -/
theorem hourPoint_time (t0 : ℤ) (ε : ℤ → ℚ) (i : ℤ) :
    (hourPoint t0 ε i).time = ((t0 + i : ℤ) : ℚ) := rfl

/-- Price of one generated point. -/
theorem hourPoint_price (t0 : ℤ) (ε : ℤ → ℚ) (i : ℤ) :
    (hourPoint t0 ε i).price
      = round2 (base_price ((t0 + i).emod 24) + ε i) := rfl

/-- C3: the generator's `hourly_data` has exactly 48 points; their
timestamps are the truncated current local hour plus the offsets −24 through
+23, strictly increasing in chronological order at exactly one-hour
spacing. -/
theorem generate_hourly_shape (now : ℚ) (ε : ℤ → ℚ) :
    (generate_fallback_data now ε).hourly_data.length = 48 ∧
    (generate_fallback_data now ε).hourly_data.map HourItem.time
      = (List.range 48).map (fun k : ℕ => (⌊now⌋ : ℚ) + (k : ℚ) - 24) ∧
    List.Chain' (fun a b => b.time = a.time + 1)
      (generate_fallback_data now ε).hourly_data ∧
    List.Pairwise (fun a b => a.time < b.time)
      (generate_fallback_data now ε).hourly_data := by
  refine ⟨generate_hourly_length now ε, ?_, ?_, ?_⟩
  · rw [generate_hourly_data_eq, List.map_map]
    refine List.map_congr_left ?_
    intro k hk
    show (hourPoint ⌊now⌋ ε ((k : ℤ) - 24)).time = (⌊now⌋ : ℚ) + (k : ℚ) - 24
    rw [hourPoint_time]
    push_cast
    ring
  · rw [generate_hourly_data_eq, List.chain'_iff_get]
    intro i h
    simp only [List.get_eq_getElem, List.getElem_map, List.getElem_range]
    rw [hourPoint_time, hourPoint_time]
    push_cast
    ring
  · rw [generate_hourly_data_eq, List.pairwise_map]
    refine List.Pairwise.imp ?_ (List.pairwise_lt_range 48)
    intro a b hab
    show (hourPoint ⌊now⌋ ε ((a : ℤ) - 24)).time
      < (hourPoint ⌊now⌋ ε ((b : ℤ) - 24)).time
    rw [hourPoint_time, hourPoint_time]
    have hq : (a : ℚ) < (b : ℚ) := by exact_mod_cast hab
    push_cast
    linarith

/-- C6: every generated price is the hour-of-day bucket base price plus that
iteration's uniform noise, rounded to two decimals; the buckets are
[0,6)→6, [6,9)→8, [9,17)→12, [17,22)→10, [22,24)→7; in particular local
hour 14 has base 12 and local hour 2 has base 6. -/
theorem generate_price_formula (now : ℚ) (ε : ℤ → ℚ) :
    ((generate_fallback_data now ε).hourly_data.map HourItem.price
      = (List.range 48).map (fun k : ℕ =>
          round2 (base_price ((⌊now⌋ + ((k : ℤ) - 24)).emod 24)
            + ε ((k : ℤ) - 24)))) ∧
    (∀ h : ℤ, (0 ≤ h → h < 6 → base_price h = 6) ∧
      (6 ≤ h → h < 9 → base_price h = 8) ∧
      (9 ≤ h → h < 17 → base_price h = 12) ∧
      (17 ≤ h → h < 22 → base_price h = 10) ∧
      (22 ≤ h → h < 24 → base_price h = 7)) ∧
    base_price 14 = 12 ∧ base_price 2 = 6 := by
  refine ⟨?_, ?_, ?_, ?_⟩
  · rw [generate_hourly_data_eq, List.map_map]
    refine List.map_congr_left ?_
    intro k hk
    show (hourPoint ⌊now⌋ ε ((k : ℤ) - 24)).price = _
    rw [hourPoint_price]
  · intro h
    refine ⟨?_, ?_, ?_, ?_, ?_⟩ <;> intro h1 h2 <;> unfold base_price <;>
      split_ifs <;> first | rfl | (exfalso; omega)
  · norm_num [base_price]
  · norm_num [base_price]

/-- Witness for C6: the two concrete bucket scenarios. -/
theorem generate_price_formula_witness :
    base_price 14 = 12 ∧ base_price 2 = 6 :=
  ⟨((generate_price_formula 0 (fun _ => 0)).2.1 14).2.2.1
      (by norm_num) (by norm_num),
   ((generate_price_formula 0 (fun _ => 0)).2.1 2).1
      (by norm_num) (by norm_num)⟩

set_option maxRecDepth 100000 in
/-- C7 counterexample: at `now = 0` with zero noise every price is its base
price; the 48 prices sum to 440, so the exact mean is 55/6 = 9.1666…, but
the stored `average_price` is the rounded value 9.17 — the claim's equality
with the exact arithmetic mean fails. -/
theorem average_price_ne_mean :
    (generate_fallback_data 0 (fun _ => 0)).average_price
      ≠ ((generate_fallback_data 0 (fun _ => 0)).hourly_data.map
            HourItem.price).sum
          / (((generate_fallback_data 0 (fun _ => 0)).hourly_data.map
            HourItem.price).length : ℚ) := by
  with_unfolding_all decide

/-- C7 amended: `average_price` equals the arithmetic mean of the 48 hourly
prices rounded to two decimal places (the script stores
`round(avg_price, 2)`). -/
theorem generate_average_price (now : ℚ) (ε : ℤ → ℚ) :
    (generate_fallback_data now ε).average_price
      = round2 ((((generate_fallback_data now ε).hourly_data.map
          (·.price)).sum) / 48) := by
  rw [generate_average_eq]
  rw [List.length_map, generate_hourly_length]
  norm_num

/-- The price list is non-empty. -/
theorem generate_prices_ne_nil (now : ℚ) (ε : ℤ → ℚ) :
    (generate_fallback_data now ε).hourly_data.map (·.price) ≠ [] := by
  intro h
  have := congrArg List.length h
  rw [List.length_map, generate_hourly_length] at this
  simp at this

/-- C4: the generated list is non-empty; every point's price lies between
the stored `min_price.value` and `max_price.value`; those stored values are
attained, and the stored `min_price.time` / `max_price.time` are the
timestamps of the first point in chronological order attaining them (no
earlier point has the same price). -/
theorem generate_min_max_spec (now : ℚ) (ε : ℤ → ℚ) :
    (generate_fallback_data now ε).hourly_data ≠ [] ∧
    (∀ p ∈ (generate_fallback_data now ε).hourly_data,
      (generate_fallback_data now ε).min_price.value ≤ p.price ∧
        p.price ≤ (generate_fallback_data now ε).max_price.value) ∧
    (∃ j, j < (generate_fallback_data now ε).hourly_data.length ∧
      ((generate_fallback_data now ε).hourly_data.getD j default).price
        = (generate_fallback_data now ε).min_price.value ∧
      (generate_fallback_data now ε).min_price.time
        = ((generate_fallback_data now ε).hourly_data.getD j default).time ∧
      ∀ k, k < j →
        ((generate_fallback_data now ε).hourly_data.getD k default).price
          ≠ (generate_fallback_data now ε).min_price.value) ∧
    (∃ j, j < (generate_fallback_data now ε).hourly_data.length ∧
      ((generate_fallback_data now ε).hourly_data.getD j default).price
        = (generate_fallback_data now ε).max_price.value ∧
      (generate_fallback_data now ε).max_price.time
        = ((generate_fallback_data now ε).hourly_data.getD j default).time ∧
      ∀ k, k < j →
        ((generate_fallback_data now ε).hourly_data.getD k default).price
          ≠ (generate_fallback_data now ε).max_price.value) := by
  refine ⟨generate_hourly_ne_nil now ε, ?_, ?_, ?_⟩
  · intro p hp
    constructor
    · rw [generate_min_value_eq]
      exact pyMin_le (List.mem_map_of_mem _ hp)
    · rw [generate_max_value_eq]
      exact pyMax_ge (List.mem_map_of_mem _ hp)
  · obtain ⟨q, hq, hqv⟩ := List.mem_map.mp
      (pyMin_mem (generate_prices_ne_nil now ε))
    obtain ⟨a, ha⟩ : ∃ a, (generate_fallback_data now ε).hourly_data.find?
        (fun it => it.price == (generate_fallback_data now ε).min_price.value)
        = some a := by
      cases hf : (generate_fallback_data now ε).hourly_data.find?
          (fun it => it.price ==
            (generate_fallback_data now ε).min_price.value) with
      | none =>
        exfalso
        refine List.find?_eq_none.mp hf q hq ?_
        rw [generate_min_value_eq]
        exact beq_iff_eq.mpr hqv
      | some a => exact ⟨a, rfl⟩
    obtain ⟨j, hj, hja, hpa, hfirst⟩ := find?_first _ default _ a ha
    refine ⟨j, hj, ?_, ?_, ?_⟩
    · rw [hja]
      exact beq_iff_eq.mp hpa
    · rw [generate_min_time_eq, ha, Option.getD_some, hja]
    · intro k hk hcontra
      have hfk := hfirst k hk
      rw [hcontra] at hfk
      simp at hfk
  · obtain ⟨q, hq, hqv⟩ := List.mem_map.mp
      (pyMax_mem (generate_prices_ne_nil now ε))
    obtain ⟨a, ha⟩ : ∃ a, (generate_fallback_data now ε).hourly_data.find?
        (fun it => it.price == (generate_fallback_data now ε).max_price.value)
        = some a := by
      cases hf : (generate_fallback_data now ε).hourly_data.find?
          (fun it => it.price ==
            (generate_fallback_data now ε).max_price.value) with
      | none =>
        exfalso
        refine List.find?_eq_none.mp hf q hq ?_
        rw [generate_max_value_eq]
        exact beq_iff_eq.mpr hqv
      | some a => exact ⟨a, rfl⟩
    obtain ⟨j, hj, hja, hpa, hfirst⟩ := find?_first _ default _ a ha
    refine ⟨j, hj, ?_, ?_, ?_⟩
    · rw [hja]
      exact beq_iff_eq.mp hpa
    · rw [generate_max_time_eq, ha, Option.getD_some, hja]
    · intro k hk hcontra
      have hfk := hfirst k hk
      rw [hcontra] at hfk
      simp at hfk

set_option maxRecDepth 100000 in
/-- Witness for C4: at a concrete input, the first point's price is between
the stored minimum and maximum. -/
theorem generate_min_max_spec_witness :
    (generate_fallback_data 0 (fun _ => 0)).min_price.value
        ≤ ((generate_fallback_data 0 (fun _ => 0)).hourly_data.getD 0
            default).price ∧
      ((generate_fallback_data 0 (fun _ => 0)).hourly_data.getD 0
            default).price
        ≤ (generate_fallback_data 0 (fun _ => 0)).max_price.value :=
  (generate_min_max_spec 0 (fun _ => 0)).2.1 _ (by with_unfolding_all decide)

/-- C5: `current_price` is the price of a point whose timestamp has minimal
absolute distance to `now` among all 48 points, and every point strictly
before it in chronological order is strictly farther from `now` — so ties
go to the first point. -/
theorem generate_current_price_closest (now : ℚ) (ε : ℤ → ℚ) :
    ∃ j, j < (generate_fallback_data now ε).hourly_data.length ∧
      (generate_fallback_data now ε).current_price
        = ((generate_fallback_data now ε).hourly_data.getD j default).price ∧
      (∀ k, k < (generate_fallback_data now ε).hourly_data.length →
        |((generate_fallback_data now ε).hourly_data.getD j default).time
            - now|
          ≤ |((generate_fallback_data now ε).hourly_data.getD k default).time
            - now|) ∧
      ∀ k, k < j →
        |((generate_fallback_data now ε).hourly_data.getD j default).time
            - now|
          < |((generate_fallback_data now ε).hourly_data.getD k default).time
            - now| := by
  obtain ⟨r, j, hsome, hj, hgd, hmin, hfirst⟩ :=
    pyMinBy_spec (fun x => |x.time - now|) default
      (generate_fallback_data now ε).hourly_data (generate_hourly_ne_nil now ε)
  refine ⟨j, hj, ?_, ?_, ?_⟩
  · rw [generate_current_eq, hsome, Option.getD_some, hgd]
  · intro k hk
    rw [hgd]
    exact hmin k hk
  · intro k hk
    rw [hgd]
    exact hfirst k hk

/-- Witness for C5 at a concrete input. -/
theorem generate_current_price_closest_witness :
    ∃ j, j < (generate_fallback_data 0 (fun _ => 0)).hourly_data.length ∧
      (generate_fallback_data 0 (fun _ => 0)).current_price
        = ((generate_fallback_data 0 (fun _ => 0)).hourly_data.getD j
            default).price ∧
      (∀ k, k < (generate_fallback_data 0 (fun _ => 0)).hourly_data.length →
        |((generate_fallback_data 0 (fun _ => 0)).hourly_data.getD j
            default).time - 0|
          ≤ |((generate_fallback_data 0 (fun _ => 0)).hourly_data.getD k
            default).time - 0|) ∧
      ∀ k, k < j →
        |((generate_fallback_data 0 (fun _ => 0)).hourly_data.getD j
            default).time - 0|
          < |((generate_fallback_data 0 (fun _ => 0)).hourly_data.getD k
            default).time - 0| :=
  generate_current_price_closest 0 (fun _ => 0)

/-- C10: with the noise bounded in [−1.5, 1.5], every generated hourly
price — and therefore the stored `min_price.value`, `max_price.value` and
`current_price` — lies in the closed interval [4.5, 13.5]: the base prices
lie in [6, 12] and two-decimal rounding cannot move a value of [4.5, 13.5]
outside that interval. -/
theorem generate_prices_bounded (now : ℚ) (ε : ℤ → ℚ)
    (hε : ∀ i : ℤ, -(3 / 2 : ℚ) ≤ ε i ∧ ε i ≤ 3 / 2) :
    (∀ p ∈ (generate_fallback_data now ε).hourly_data,
      (9 / 2 : ℚ) ≤ p.price ∧ p.price ≤ 27 / 2) ∧
    ((9 / 2 : ℚ) ≤ (generate_fallback_data now ε).min_price.value ∧
      (generate_fallback_data now ε).min_price.value ≤ 27 / 2) ∧
    ((9 / 2 : ℚ) ≤ (generate_fallback_data now ε).max_price.value ∧
      (generate_fallback_data now ε).max_price.value ≤ 27 / 2) ∧
    ((9 / 2 : ℚ) ≤ (generate_fallback_data now ε).current_price ∧
      (generate_fallback_data now ε).current_price ≤ 27 / 2) := by
  have e1 : round2 (9 / 2 : ℚ) = 9 / 2 := by with_unfolding_all decide
  have e2 : round2 (27 / 2 : ℚ) = 27 / 2 := by with_unfolding_all decide
  have hpt : ∀ i : ℤ, (9 / 2 : ℚ) ≤ (hourPoint ⌊now⌋ ε i).price ∧
      (hourPoint ⌊now⌋ ε i).price ≤ 27 / 2 := by
    intro i
    obtain ⟨hb1, hb2⟩ := base_price_bounds ((⌊now⌋ + i).emod 24)
    obtain ⟨hn1, hn2⟩ := hε i
    rw [hourPoint_price]
    constructor
    · rw [← e1]
      exact round2_mono (by linarith)
    · rw [← e2]
      exact round2_mono (by linarith)
  have hall : ∀ p ∈ (generate_fallback_data now ε).hourly_data,
      (9 / 2 : ℚ) ≤ p.price ∧ p.price ≤ 27 / 2 := by
    intro p hp
    obtain ⟨k, hk, rfl⟩ := mem_generate_hourly.mp hp
    exact hpt _
  refine ⟨hall, ?_, ?_, ?_⟩
  · obtain ⟨q, hq, hqv⟩ := List.mem_map.mp
      (pyMin_mem (generate_prices_ne_nil now ε))
    rw [generate_min_value_eq, ← hqv]
    exact hall q hq
  · obtain ⟨q, hq, hqv⟩ := List.mem_map.mp
      (pyMax_mem (generate_prices_ne_nil now ε))
    rw [generate_max_value_eq, ← hqv]
    exact hall q hq
  · obtain ⟨r, j, hsome, hj, hgd, hmin, hfirst⟩ :=
      pyMinBy_spec (fun x => |x.time - now|) default
        (generate_fallback_data now ε).hourly_data
        (generate_hourly_ne_nil now ε)
    have hr : r ∈ (generate_fallback_data now ε).hourly_data := by
      rw [← hgd, getD_of_lt _ _ hj]
      exact List.get_mem _ _ _
    rw [generate_current_eq, hsome, Option.getD_some]
    exact hall r hr

/-- Witness for C10 at zero noise: the bound on the current price. -/
theorem generate_prices_bounded_witness :
    (9 / 2 : ℚ) ≤ (generate_fallback_data 0 (fun _ => 0)).current_price ∧
      (generate_fallback_data 0 (fun _ => 0)).current_price ≤ 27 / 2 :=
  (generate_prices_bounded 0 (fun _ => 0)
    (fun i => by norm_num)).2.2.2
